import Mathlib

/-!
Shallow embedding of the etl-sales-dashboard repository.

Dashboard side (src/app.py): the sales table is a list of rows; region,
category and order_date may be absent (the database may hold nulls, and
unparseable dates are coerced to null). The filter mask, the five KPI
metrics, the region-share series and the chart guard are translated
one-for-one from the script. Monetary values are modelled as rationals.

ETL side (src/etl.py): a data frame is a column-name list plus rows of
optional cells; transform renames the columns (strip, lowercase, spaces
to underscores) and drops the rows containing a missing cell, and load
replaces the destination table wholesale. The in-place behaviour of
transform is modelled by a heap of references to data frames.
-/

/-- Calendar date, compared chronologically. -/
structure Date where
  year : Nat
  month : Nat
  day : Nat
deriving DecidableEq, Repr

/-- Chronological (lexicographic) order on dates, as pandas compares
timestamps. -/
def dateLe (a b : Date) : Prop :=
  a.year < b.year ∨
    (a.year = b.year ∧
      (a.month < b.month ∨ (a.month = b.month ∧ a.day ≤ b.day)))

instance (a b : Date) : Decidable (dateLe a b) := by
  unfold dateLe; exact inferInstance

/-- One row of the sales table read by src/app.py. The region, category
and order_date columns may hold nulls; sales is a rational number. -/
structure SalesRow where
  order_date : Option Date
  region : Option String
  category : Option String
  product_name : String
  customer_id : String
  sales : ℚ
deriving DecidableEq

/-- The boolean filter mask of src/app.py lines 61 to 69: region isin the
selected regions, category isin the selected categories, and order_date
between the two endpoints inclusive. A null field makes the corresponding
conjunct false, exactly as isin and between treat nulls in pandas. -/
def mask (regions categories : List String) (d1 d2 : Date) (r : SalesRow) :
    Bool :=
  (match r.region with
   | some x => decide (x ∈ regions)
   | none => false) &&
  (match r.category with
   | some x => decide (x ∈ categories)
   | none => false) &&
  (match r.order_date with
   | some d => decide (dateLe d1 d) && decide (dateLe d d2)
   | none => false)

/-- filtered_df = df.loc[mask] (src/app.py line 70). -/
def filtered_df (regions categories : List String) (d1 d2 : Date)
    (df : List SalesRow) : List SalesRow :=
  df.filter (mask regions categories d1 d2)

/-- total_sales = filtered_df[sales].sum() (sum of the empty set is 0). -/
def total_sales (f : List SalesRow) : ℚ :=
  (f.map (fun r => r.sales)).sum

/-- avg_order_value = filtered_df[sales].mean(); the mean of an empty
column is the NaN sentinel, modelled as none. -/
def avg_order_value (f : List SalesRow) : Option ℚ :=
  if f.length = 0 then none else some (total_sales f / (f.length : ℚ))

/-- The distinct strings of a list. -/
def dedupKeys : List String → List String
  | [] => []
  | a :: l => if a ∈ dedupKeys l then dedupKeys l else a :: dedupKeys l

/-- unique_customers = filtered_df[customer_id].nunique(). -/
def unique_customers (f : List SalesRow) : Nat :=
  (dedupKeys (f.map (fun r => r.customer_id))).length

/-- Lexicographic order on character codes, the order in which pandas
sorts string group keys. -/
def lexLe : List Char → List Char → Bool
  | [], _ => true
  | _ :: _, [] => false
  | a :: as, b :: bs =>
    if a.toNat < b.toNat then true
    else if b.toNat < a.toNat then false
    else lexLe as bs

/-- Insertion of a key into a sorted key list. -/
def insertKey (a : String) : List String → List String
  | [] => [a]
  | b :: l => if lexLe a.data b.data then a :: b :: l else b :: insertKey a l

/-- Insertion sort of the group keys (groupby returns its groups with
sorted keys). -/
def sortKeys (l : List String) : List String :=
  l.foldr insertKey []

/-- Sum of the sales of the rows whose key is k. -/
def key_sum (key : SalesRow → Option String) (k : String)
    (f : List SalesRow) : ℚ :=
  ((f.filter (fun r => decide (key r = some k))).map (fun r => r.sales)).sum

/-- f.groupby(key)[sales].sum(): the distinct non-null keys in sorted
order, each paired with the summed sales of its group. Rows with a null
key are dropped, as pandas groupby drops them. -/
def groupby_sum (key : SalesRow → Option String) (f : List SalesRow) :
    List (String × ℚ) :=
  (sortKeys (dedupKeys (f.filterMap key))).map (fun k => (k, key_sum key k f))

/-- The entry a series idxmax selects: the first entry whose value is not
exceeded later (a later entry replaces the current best only when its
value is strictly greater). -/
def bestPair : List (String × ℚ) → Option (String × ℚ)
  | [] => none
  | p :: rest =>
    some (rest.foldl (fun best q => if best.2 < q.2 then q else best) p)

/-- Series.idxmax: the index of the first occurrence of the maximum
value; none on an empty series. -/
def idxmax (l : List (String × ℚ)) : Option String :=
  (bestPair l).map Prod.fst

/-- top_product (src/app.py line 77): idxmax of the per-product sales
sums when the filtered frame is nonempty, otherwise the sentinel. -/
def top_product (f : List SalesRow) : String :=
  if f.isEmpty then "N/A"
  else
    match idxmax (groupby_sum (fun r => some r.product_name) f) with
    | some k => k
    | none => "N/A"

/-- Round half to even, the rounding used by Series.round: the nearer
integer, and the even neighbour when q sits exactly on a half. -/
def roundHalfEven (q : ℚ) : ℤ :=
  if 2 * q < 2 * ⌊q⌋ + 1 then ⌊q⌋
  else if 2 * (⌊q⌋ : ℚ) + 1 < 2 * q then ⌊q⌋ + 1
  else if ⌊q⌋ % 2 = 0 then ⌊q⌋ else ⌊q⌋ + 1

/-- Series.round(2): round to two decimal places. -/
def round2 (q : ℚ) : ℚ :=
  (roundHalfEven (q * 100) : ℚ) / 100

/-- region_share (src/app.py line 78): the per-region percentage shares
of total sales, rounded to two decimals, when total sales is positive;
the empty series otherwise. -/
def region_share (f : List SalesRow) : List (String × ℚ) :=
  if 0 < total_sales f then
    (groupby_sum (fun r => r.region) f).map
      (fun p => (p.1, round2 (p.2 / total_sales f * 100)))
  else []

/-- best_region (src/app.py line 79): idxmax of the share series when it
is nonempty, otherwise the sentinel. -/
def best_region (f : List SalesRow) : String :=
  match idxmax (region_share f) with
  | some k => k
  | none => "N/A"

/-- The chart section runs only when the filtered frame is nonempty
(src/app.py lines 91 to 105); otherwise the empty-state warning shows. -/
def charts_rendered (f : List SalesRow) : Bool :=
  !f.isEmpty

/-- Python strip(): remove leading and trailing whitespace. -/
def stripChars (cs : List Char) : List Char :=
  ((cs.dropWhile Char.isWhitespace).reverse.dropWhile Char.isWhitespace).reverse

/-- c.strip().lower().replace(space, underscore), the column-name
normalization of src/etl.py line 19. -/
def normalize_col (c : String) : String :=
  String.mk
    (((stripChars c.data).map Char.toLower).map
      (fun ch => if ch = ' ' then '_' else ch))

/-- A data frame for the ETL side: column names plus rows of optional
cells (a none cell is a missing value). -/
structure DataFrame (α : Type) where
  cols : List String
  rows : List (List (Option α))
deriving DecidableEq

/-- A row survives dropna exactly when every cell is present. -/
def row_complete {α : Type} (r : List (Option α)) : Bool :=
  r.all Option.isSome

/-- transform (src/etl.py lines 17 to 25): rename every column with
normalize_col, then drop the rows with a missing cell. -/
def transform {α : Type} (df : DataFrame α) : DataFrame α :=
  { cols := df.cols.map normalize_col
    rows := df.rows.filter row_complete }

/-- load (src/etl.py lines 27 to 34): to_sql with if_exists replace
discards the previous table state entirely. -/
def load {α : Type} (df : DataFrame α) (_db : Option (DataFrame α)) :
    Option (DataFrame α) :=
  some df

/-- One run of the __main__ pipeline of src/etl.py against an already
extracted source frame, returning the new database state. -/
def etl_job {α : Type} (source : DataFrame α) (db : Option (DataFrame α)) :
    Option (DataFrame α) :=
  load (transform source) db

/-- A heap of data-frame references, to model Python object identity. -/
abbrev Heap (α : Type) : Type :=
  Nat → Option (DataFrame α)

/-- The transform call as executed at a reference: df.columns is
reassigned and dropna acts with inplace true, so the frame stored at the
argument reference is replaced by its transformed value and the very
same reference is returned. -/
def transform_op {α : Type} (h : Heap α) (ref : Nat) : Heap α × Nat :=
  (fun r => if r = ref then (h ref).map transform else h r, ref)

/-- Split a character list on a separator character. -/
def splitOnChar (sep : Char) : List Char → List (List Char)
  | [] => [[]]
  | c :: cs =>
    match splitOnChar sep cs with
    | [] => if c = sep then [[], []] else [[c]]
    | f :: fs => if c = sep then [] :: f :: fs else (c :: f) :: fs

/-- A nonempty all-digit field parsed as a natural number. -/
def parseNatField (cs : List Char) : Option Nat :=
  if cs.isEmpty then none
  else if cs.all Char.isDigit then
    some (cs.foldl (fun n c => 10 * n + (c.toNat - 48)) 0)
  else none

/-- Gregorian leap year. -/
def isLeapYear (y : Nat) : Bool :=
  (decide (y % 4 = 0) && decide (y % 100 ≠ 0)) || decide (y % 400 = 0)

/-- Days in a month of a given year. -/
def daysInMonth (y m : Nat) : Nat :=
  if m = 2 then (if isLeapYear y then 29 else 28)
  else if m = 4 ∨ m = 6 ∨ m = 9 ∨ m = 11 then 30
  else 31

/-- A valid calendar day-month pair. -/
def validDate (y m d : Nat) : Bool :=
  decide (1 ≤ m) && decide (m ≤ 12) && decide (1 ≤ d) &&
    decide (d ≤ daysInMonth y m)

/-- Models the pandas to_datetime call of src/app.py line 24, with
dayfirst true and errors coerce, restricted to slash-separated numeric
strings: the first field is read as the day and the second as the month;
when that reading is invalid but swapping day and month is valid, the
swap is used (the dateutil fallback); every other input is coerced to
none instead of raising. -/
def parse_date_dayfirst (s : String) : Option Date :=
  match splitOnChar '/' s.data with
  | [a, b, c] =>
    match parseNatField a, parseNatField b, parseNatField c with
    | some d, some m, some y =>
      if validDate y m d then some ⟨y, m, d⟩
      else if validDate y d m then some ⟨y, d, m⟩
      else none
    | _, _, _ => none
  | _ => none

/-! ### Helper lemmas about the key machinery -/

theorem mem_dedupKeys {x : String} : ∀ {l : List String},
    x ∈ dedupKeys l ↔ x ∈ l := by
  intro l
  induction l with
  | nil => simp [dedupKeys]
  | cons a l ih =>
    by_cases h : a ∈ dedupKeys l
    · simp only [dedupKeys, if_pos h, List.mem_cons, ih]
      constructor
      · exact fun hx => Or.inr hx
      · rintro (rfl | hx)
        · exact ih.mp h
        · exact hx
    · simp [dedupKeys, if_neg h, List.mem_cons, ih]

theorem nodup_dedupKeys : ∀ (l : List String), (dedupKeys l).Nodup := by
  intro l
  induction l with
  | nil => simp [dedupKeys]
  | cons a l ih =>
    by_cases h : a ∈ dedupKeys l
    · simpa [dedupKeys, if_pos h] using ih
    · simpa [dedupKeys, if_neg h] using ⟨h, ih⟩

theorem dedupKeys_ne_nil {a : String} {l : List String} (h : a ∈ l) :
    dedupKeys l ≠ [] := by
  intro hnil
  have := mem_dedupKeys.mpr h
  rw [hnil] at this
  exact absurd this (List.not_mem_nil a)

theorem insertKey_perm (a : String) : ∀ (l : List String),
    (insertKey a l).Perm (a :: l) := by
  intro l
  induction l with
  | nil => simp [insertKey]
  | cons b l ih =>
    rw [insertKey]
    by_cases h : lexLe a.data b.data
    · simp [h]
    · simp only [if_neg h]
      exact ((ih.cons b).trans (List.Perm.swap a b l))

theorem sortKeys_perm : ∀ (l : List String), (sortKeys l).Perm l := by
  intro l
  induction l with
  | nil => simp [sortKeys]
  | cons a l ih =>
    have : sortKeys (a :: l) = insertKey a (sortKeys l) := rfl
    rw [this]
    exact (insertKey_perm a (sortKeys l)).trans (ih.cons a)

theorem mem_sortKeys {x : String} {l : List String} :
    x ∈ sortKeys l ↔ x ∈ l :=
  (sortKeys_perm l).mem_iff

theorem nodup_sortKeys {l : List String} (h : l.Nodup) :
    (sortKeys l).Nodup :=
  ((sortKeys_perm l).nodup_iff).mpr h

theorem sortKeys_ne_nil {l : List String} (h : l ≠ []) :
    sortKeys l ≠ [] := by
  intro hnil
  have := (sortKeys_perm l).length_eq
  rw [hnil] at this
  exact h (List.eq_nil_of_length_eq_zero this.symm)

theorem bestPair_fold (p : String × ℚ) (rest : List (String × ℚ)) :
    (rest.foldl (fun best q => if best.2 < q.2 then q else best) p) ∈ p :: rest ∧
      ∀ q ∈ p :: rest,
        q.2 ≤ (rest.foldl (fun best q => if best.2 < q.2 then q else best) p).2 := by
  induction rest generalizing p with
  | nil => exact ⟨List.mem_cons_self p [], by simp⟩
  | cons b rest ih =>
    have step : (b :: rest).foldl (fun best q => if best.2 < q.2 then q else best) p
        = rest.foldl (fun best q => if best.2 < q.2 then q else best)
            (if p.2 < b.2 then b else p) := rfl
    rcases ih (if p.2 < b.2 then b else p) with ⟨hmem, hmax⟩
    constructor
    · rw [step]
      rcases List.mem_cons.mp hmem with h | h
      · by_cases hc : p.2 < b.2
        · rw [h, if_pos hc]; exact List.mem_cons_of_mem p (List.mem_cons_self b rest)
        · rw [h, if_neg hc]; exact List.mem_cons_self p (b :: rest)
      · exact List.mem_cons_of_mem p (List.mem_cons_of_mem b h)
    · intro q hq
      rw [step]
      have hpc : p.2 ≤ (if p.2 < b.2 then b else p).2 := by
        by_cases h : p.2 < b.2
        · simpa [if_pos h] using le_of_lt h
        · simp [if_neg h]
      have hbc : b.2 ≤ (if p.2 < b.2 then b else p).2 := by
        by_cases h : p.2 < b.2
        · simp [if_pos h]
        · simpa [if_neg h] using le_of_not_lt h
      have hbest : (if p.2 < b.2 then b else p).2 ≤
          (rest.foldl (fun best q => if best.2 < q.2 then q else best)
            (if p.2 < b.2 then b else p)).2 :=
        hmax _ (List.mem_cons_self _ rest)
      rcases List.mem_cons.mp hq with rfl | hq
      · exact le_trans hpc hbest
      · rcases List.mem_cons.mp hq with rfl | hq
        · exact le_trans hbc hbest
        · exact hmax q (List.mem_cons_of_mem _ hq)

theorem bestPair_mem {l : List (String × ℚ)} {p : String × ℚ}
    (h : bestPair l = some p) : p ∈ l := by
  cases l with
  | nil => simp [bestPair] at h
  | cons a rest =>
    rw [bestPair, Option.some_inj] at h
    rw [← h]
    exact (bestPair_fold a rest).1

theorem bestPair_max {l : List (String × ℚ)} {p : String × ℚ}
    (h : bestPair l = some p) : ∀ q ∈ l, q.2 ≤ p.2 := by
  cases l with
  | nil => simp [bestPair] at h
  | cons a rest =>
    rw [bestPair, Option.some_inj] at h
    rw [← h]
    exact (bestPair_fold a rest).2

theorem bestPair_isSome {l : List (String × ℚ)} (h : l ≠ []) :
    ∃ p, bestPair l = some p := by
  cases l with
  | nil => exact absurd rfl h
  | cons a rest => exact ⟨_, rfl⟩

theorem mem_groupby_sum {key : SalesRow → Option String} {f : List SalesRow}
    {p : String × ℚ} (h : p ∈ groupby_sum key f) :
    p.1 ∈ f.filterMap key ∧ p.2 = key_sum key p.1 f := by
  rw [groupby_sum] at h
  rcases List.mem_map.mp h with ⟨k, hk, hp⟩
  rw [← hp]
  exact ⟨mem_dedupKeys.mp (mem_sortKeys.mp hk), rfl⟩

theorem groupby_sum_ne_nil {key : SalesRow → Option String} {f : List SalesRow}
    (h : f.filterMap key ≠ []) : groupby_sum key f ≠ [] := by
  rw [groupby_sum]
  intro hnil
  rcases List.exists_mem_of_ne_nil _ h with ⟨k, hk⟩
  apply sortKeys_ne_nil (dedupKeys_ne_nil hk)
  exact List.map_eq_nil_iff.mp hnil

theorem key_sum_nil (key : SalesRow → Option String) (k : String) :
    key_sum key k [] = 0 := rfl

theorem key_sum_cons (key : SalesRow → Option String) (k : String)
    (r : SalesRow) (f : List SalesRow) :
    key_sum key k (r :: f) =
      (if key r = some k then r.sales else 0) + key_sum key k f := by
  rw [key_sum, key_sum, List.filter_cons]
  by_cases h : key r = some k
  · simp [h]
  · simp [h]

theorem sum_map_if_eq (k0 : String) (v : ℚ) :
    ∀ (ks : List String), ks.Nodup → k0 ∈ ks →
      (ks.map (fun k => if k0 = k then v else 0)).sum = v := by
  intro ks
  induction ks with
  | nil => intro _ h; exact absurd h (List.not_mem_nil k0)
  | cons a ks ih =>
    intro hnd hmem
    rcases List.mem_cons.mp hmem with rfl | hmem
    · have hnotin : k0 ∉ ks := (List.nodup_cons.mp hnd).1
      have hzero : (ks.map (fun k => if k0 = k then v else 0)).sum = 0 := by
        rw [List.sum_eq_zero]
        intro x hx
        rcases List.mem_map.mp hx with ⟨b, hb, hxb⟩
        rw [← hxb]
        have : k0 ≠ b := fun hkb => hnotin (hkb ▸ hb)
        simp [this]
      simp [hzero]
    · have hne : k0 ≠ a := by
        intro hka
        exact (List.nodup_cons.mp hnd).1 (hka ▸ hmem)
      simp only [List.map_cons, List.sum_cons, if_neg hne,
        ih (List.nodup_cons.mp hnd).2 hmem, zero_add]

theorem key_sum_partition (key : SalesRow → Option String)
    (ks : List String) (hnd : ks.Nodup) :
    ∀ (f : List SalesRow), (∀ r ∈ f, ∃ k, key r = some k ∧ k ∈ ks) →
      (ks.map (fun k => key_sum key k f)).sum = total_sales f := by
  intro f
  induction f with
  | nil =>
    intro _
    simp [key_sum_nil, total_sales]
  | cons r f ih =>
    intro hcov
    have hcov' : ∀ x ∈ f, ∃ k, key x = some k ∧ k ∈ ks :=
      fun x hx => hcov x (List.mem_cons_of_mem r hx)
    rcases hcov r (List.mem_cons_self r f) with ⟨k0, hk0, hk0mem⟩
    have hsplit : (ks.map (fun k => key_sum key k (r :: f))).sum =
        (ks.map (fun k => if key r = some k then r.sales else 0)).sum +
          (ks.map (fun k => key_sum key k f)).sum := by
      rw [← List.sum_map_add]
      congr 1
      apply List.map_congr_left
      intro k _
      exact key_sum_cons key k r f
    have hind : (ks.map (fun k => if key r = some k then r.sales else 0)).sum
        = r.sales := by
      have heq : (ks.map (fun k => if key r = some k then r.sales else 0)) =
          (ks.map (fun k => if k0 = k then r.sales else 0)) := by
        apply List.map_congr_left
        intro k _
        rw [hk0]
        by_cases h : k0 = k
        · simp [h]
        · simp [h, fun hs => h (Option.some_inj.mp hs)]
      rw [heq, sum_map_if_eq k0 r.sales ks hnd hk0mem]
    rw [hsplit, hind, ih hcov', total_sales, total_sales, List.map_cons,
      List.sum_cons]

theorem abs_roundHalfEven_sub (q : ℚ) : |(roundHalfEven q : ℚ) - q| ≤ 1/2 := by
  have h1 : (⌊q⌋ : ℚ) ≤ q := Int.floor_le q
  have h2 : q < ⌊q⌋ + 1 := Int.lt_floor_add_one q
  rw [roundHalfEven]
  by_cases hlt : 2 * q < 2 * ⌊q⌋ + 1
  · rw [if_pos hlt, abs_le]
    push_cast at hlt
    constructor <;> linarith
  · rw [if_neg hlt]
    by_cases hgt : 2 * (⌊q⌋ : ℚ) + 1 < 2 * q
    · rw [if_pos hgt, abs_le]
      push_cast
      constructor <;> linarith
    · rw [if_neg hgt]
      have heq : 2 * q = 2 * (⌊q⌋ : ℚ) + 1 := by
        push_cast at hlt
        exact le_antisymm (le_of_not_lt hgt) (le_of_not_lt hlt)
      by_cases hev : ⌊q⌋ % 2 = 0
      · rw [if_pos hev, abs_le]
        constructor <;> linarith
      · rw [if_neg hev, abs_le]
        push_cast
        constructor <;> linarith

theorem abs_round2_sub (q : ℚ) : |round2 q - q| ≤ 1/200 := by
  have h := abs_roundHalfEven_sub (q * 100)
  rw [abs_le] at h
  rw [round2, abs_le]
  constructor <;> [linarith [h.1]; linarith [h.2]]

theorem abs_list_sum_le (c : ℚ) :
    ∀ (l : List ℚ), (∀ x ∈ l, |x| ≤ c) → |l.sum| ≤ l.length * c := by
  intro l
  induction l with
  | nil => intro _; simp
  | cons x l ih =>
    intro h
    have hx := h x (List.mem_cons_self x l)
    have hl := ih (fun y hy => h y (List.mem_cons_of_mem x hy))
    calc |(x :: l).sum| = |x + l.sum| := by rw [List.sum_cons]
      _ ≤ |x| + |l.sum| := abs_add x l.sum
      _ ≤ c + l.length * c := add_le_add hx hl
      _ = (x :: l).length * c := by
          rw [List.length_cons]
          push_cast
          ring

theorem list_sum_map_sub {β : Type} (f g : β → ℚ) :
    ∀ (l : List β), (l.map (fun p => f p - g p)).sum
      = (l.map f).sum - (l.map g).sum := by
  intro l
  induction l with
  | nil => simp
  | cons x l ih =>
    simp only [List.map_cons, List.sum_cons, ih]
    ring

/-! ### Facts about the filter mask -/

theorem mask_eq_true_iff {regions categories : List String} {d1 d2 : Date}
    {r : SalesRow} :
    mask regions categories d1 d2 r = true ↔
      (∃ x, r.region = some x ∧ x ∈ regions) ∧
      (∃ x, r.category = some x ∧ x ∈ categories) ∧
      (∃ d, r.order_date = some d ∧ dateLe d1 d ∧ dateLe d d2) := by
  cases hr : r.region <;> cases hc : r.category <;> cases hd : r.order_date <;>
    simp [mask, hr, hc, hd, and_assoc]

theorem filtered_region_some {regions categories : List String} {d1 d2 : Date}
    {df : List SalesRow} {r : SalesRow}
    (h : r ∈ filtered_df regions categories d1 d2 df) :
    ∃ x, r.region = some x ∧ x ∈ regions := by
  rw [filtered_df] at h
  exact (mask_eq_true_iff.mp (List.mem_filter.mp h).2).1

theorem filterMap_pname (f : List SalesRow) :
    f.filterMap (fun r => some r.product_name) =
      f.map (fun r => r.product_name) := by
  induction f with
  | nil => rfl
  | cons r f ih => simp [List.filterMap_cons, ih]

theorem length_filter_add_not {α : Type} (p : α → Bool) :
    ∀ l : List α,
      (l.filter p).length + (l.filter (fun x => !p x)).length = l.length := by
  intro l
  induction l with
  | nil => rfl
  | cons x l ih =>
    by_cases h : p x = true
    · simp only [List.filter_cons, h, if_pos, Bool.not_true, List.length_cons]
      simp only [if_neg Bool.false_ne_true]
      omega
    · have h' : p x = false := Bool.eq_false_iff.mpr h
      simp only [List.filter_cons, h', Bool.not_false, if_pos, List.length_cons]
      simp only [if_neg Bool.false_ne_true]
      omega

/-! ### Rows used as concrete instances -/

/-- A concrete EU row. -/
def rowEU : SalesRow :=
  { order_date := some ⟨2024, 1, 5⟩, region := some "EU", category := some "A"
    product_name := "P1", customer_id := "c1", sales := 100 }

/-- A concrete US row. -/
def rowUS : SalesRow :=
  { order_date := some ⟨2024, 2, 10⟩, region := some "US", category := some "B"
    product_name := "P2", customer_id := "c2", sales := 50 }

/-- A row with a null region. -/
def rowNullRegion : SalesRow :=
  { order_date := some ⟨2024, 1, 5⟩, region := none, category := some "A"
    product_name := "P1", customer_id := "c1", sales := 100 }

/-- A row with negative sales. -/
def rowNeg : SalesRow :=
  { order_date := some ⟨2024, 1, 5⟩, region := some "EU", category := some "A"
    product_name := "P1", customer_id := "c1", sales := -5 }

/-! ### Claims -/

/-- C1: a record of the full table is in the filtered subset if and only
if its region is in the allowed-region set, its category is in the
allowed-category set, and its order_date lies in the inclusive interval
from d1 to d2. -/
theorem claim_filter_membership (regions categories : List String)
    (d1 d2 : Date) (df : List SalesRow) (r : SalesRow) (h : r ∈ df) :
    r ∈ filtered_df regions categories d1 d2 df ↔
      (∃ x, r.region = some x ∧ x ∈ regions) ∧
      (∃ x, r.category = some x ∧ x ∈ categories) ∧
      (∃ d, r.order_date = some d ∧ dateLe d1 d ∧ dateLe d d2) := by
  rw [filtered_df, List.mem_filter, ← mask_eq_true_iff]
  simp [h]

/-- C1 witness: the EU row passes the concrete select-all filter. -/
theorem claim_filter_membership_witness :
    rowEU ∈ filtered_df ["EU", "US"] ["A", "B"] ⟨2024, 1, 1⟩ ⟨2024, 12, 31⟩
      [rowEU, rowUS] :=
  (claim_filter_membership ["EU", "US"] ["A", "B"] ⟨2024, 1, 1⟩ ⟨2024, 12, 31⟩
      [rowEU, rowUS] rowEU (List.mem_cons_self rowEU [rowUS])).mpr
    ⟨⟨"EU", rfl, by decide⟩, ⟨"A", rfl, by decide⟩,
      ⟨⟨2024, 1, 5⟩, rfl, by decide, by decide⟩⟩

/-- C9: a record with a null region, category or order_date is excluded
from the filtered subset under every filter selection, because null
membership tests and null date comparisons are false. -/
theorem claim_null_fields_excluded (regions categories : List String)
    (d1 d2 : Date) (df : List SalesRow) (r : SalesRow)
    (h : r.region = none ∨ r.category = none ∨ r.order_date = none) :
    r ∉ filtered_df regions categories d1 d2 df := by
  intro hmem
  rw [filtered_df] at hmem
  rcases mask_eq_true_iff.mp (List.mem_filter.mp hmem).2 with
    ⟨⟨x, hx, _⟩, ⟨y, hy, _⟩, ⟨d, hd, _⟩⟩
  rcases h with h | h | h
  · rw [h] at hx; exact Option.noConfusion hx
  · rw [h] at hy; exact Option.noConfusion hy
  · rw [h] at hd; exact Option.noConfusion hd

/-- C9 witness: the null-region row is excluded even though it is in the
source table and the other fields pass. -/
theorem claim_null_fields_excluded_witness :
    rowNullRegion ∉ filtered_df ["EU"] ["A"] ⟨2024, 1, 1⟩ ⟨2024, 12, 31⟩
      [rowNullRegion] :=
  claim_null_fields_excluded ["EU"] ["A"] ⟨2024, 1, 1⟩ ⟨2024, 12, 31⟩
    [rowNullRegion] rowNullRegion (Or.inl rfl)

/-- C5: an empty region or category selection empties the filtered
subset, and an empty filtered subset yields zero total sales, the absent
mean sentinel, the two N/A sentinels, and no rendered charts. -/
theorem claim_empty_subset_sentinels (regions categories : List String)
    (d1 d2 : Date) (df : List SalesRow) :
    ((regions = [] ∨ categories = []) →
      filtered_df regions categories d1 d2 df = []) ∧
    (filtered_df regions categories d1 d2 df = [] →
      total_sales (filtered_df regions categories d1 d2 df) = 0 ∧
      avg_order_value (filtered_df regions categories d1 d2 df) = none ∧
      top_product (filtered_df regions categories d1 d2 df) = "N/A" ∧
      best_region (filtered_df regions categories d1 d2 df) = "N/A" ∧
      charts_rendered (filtered_df regions categories d1 d2 df) = false) := by
  constructor
  · intro h
    rw [filtered_df, List.filter_eq_nil_iff]
    intro r _
    intro hmask
    rcases mask_eq_true_iff.mp hmask with ⟨⟨x, _, hx⟩, ⟨y, _, hy⟩, _⟩
    rcases h with h | h
    · rw [h] at hx; exact List.not_mem_nil x hx
    · rw [h] at hy; exact List.not_mem_nil y hy
  · intro h
    rw [h]
    norm_num [total_sales, avg_order_value, top_product, best_region,
      region_share, charts_rendered, idxmax, bestPair]

/-- C5 witness: with an empty region selection over a concrete table all
five sentinels hold. -/
theorem claim_empty_subset_sentinels_witness :
    filtered_df [] ["A"] ⟨2024, 1, 1⟩ ⟨2024, 12, 31⟩ [rowEU] = [] ∧
    total_sales (filtered_df [] ["A"] ⟨2024, 1, 1⟩ ⟨2024, 12, 31⟩ [rowEU]) = 0 ∧
    avg_order_value (filtered_df [] ["A"] ⟨2024, 1, 1⟩ ⟨2024, 12, 31⟩ [rowEU])
      = none ∧
    top_product (filtered_df [] ["A"] ⟨2024, 1, 1⟩ ⟨2024, 12, 31⟩ [rowEU])
      = "N/A" ∧
    best_region (filtered_df [] ["A"] ⟨2024, 1, 1⟩ ⟨2024, 12, 31⟩ [rowEU])
      = "N/A" ∧
    charts_rendered (filtered_df [] ["A"] ⟨2024, 1, 1⟩ ⟨2024, 12, 31⟩ [rowEU])
      = false := by
  have h := claim_empty_subset_sentinels [] ["A"] ⟨2024, 1, 1⟩ ⟨2024, 12, 31⟩
    [rowEU]
  have h1 := h.1 (Or.inl rfl)
  exact ⟨h1, h.2 h1⟩

/-- C2: the transform step renames every column to its normalized name
and then removes exactly the incomplete records; the output row count is
the input row count minus the number of incomplete rows. -/
theorem claim_transform_rename_dropna (α : Type) (df : DataFrame α) :
    (transform df).cols = df.cols.map normalize_col ∧
    (∀ r, r ∈ (transform df).rows ↔ r ∈ df.rows ∧ row_complete r = true) ∧
    (transform df).rows.length =
      df.rows.length - (df.rows.filter (fun r => !(row_complete r))).length := by
  refine ⟨rfl, fun r => List.mem_filter, ?_⟩
  have h := length_filter_add_not (@row_complete α) df.rows
  show (df.rows.filter row_complete).length = _
  omega

/-- C6: running the ETL job twice in succession against the same source
yields an identical destination state, and the destination state does not
depend on the prior state at all, because load replaces the table. -/
theorem claim_etl_idempotent (α : Type) (source : DataFrame α)
    (db : Option (DataFrame α)) :
    etl_job source (etl_job source db) = etl_job source db ∧
    ∀ db' : Option (DataFrame α), etl_job source db' = etl_job source db :=
  ⟨rfl, fun _ => rfl⟩

/-- C8: day-first parsing sends 31/01/2024 to January 31 2024 (not an
error and not a March date), and unparseable inputs are coerced to the
absent value rather than raising. -/
theorem claim_dayfirst_date :
    parse_date_dayfirst "31/01/2024" = some ⟨2024, 1, 31⟩ ∧
    parse_date_dayfirst "31/13/2024" = none ∧
    parse_date_dayfirst "00/00/0000" = none ∧
    parse_date_dayfirst "hello" = none := by
  refine ⟨?_, ?_, ?_, ?_⟩ <;> decide

/-- C10: the transform call leaves the transformed frame at the very
reference it was given and returns that same reference; surrounding
references are untouched, and whenever the transform actually changes
the frame the original value is no longer stored at the reference. -/
theorem claim_transform_in_place (α : Type) (h : Heap α) (ref : Nat)
    (df : DataFrame α) (hdf : h ref = some df) :
    (transform_op h ref).2 = ref ∧
    (transform_op h ref).1 ref = some (transform df) ∧
    (∀ r, r ≠ ref → (transform_op h ref).1 r = h r) ∧
    (transform df ≠ df → (transform_op h ref).1 ref ≠ some df) := by
  refine ⟨rfl, ?_, ?_, ?_⟩
  · show (if ref = ref then (h ref).map transform else h ref) = _
    rw [if_pos rfl, hdf]; rfl
  · intro r hr
    show (if r = ref then (h ref).map transform else h r) = h r
    rw [if_neg hr]
  · intro hne hsame
    have h2 : (transform_op h ref).1 ref = some (transform df) := by
      show (if ref = ref then (h ref).map transform else h ref) = _
      rw [if_pos rfl, hdf]; rfl
    rw [hsame] at h2
    exact hne (Option.some_inj.mp h2).symm

/-- A concrete frame whose transform changes it: a column name to rename
and an incomplete row to drop. -/
def dfW : DataFrame String :=
  { cols := ["A B"], rows := [[some "x"], [none]] }

/-- A one-reference heap holding dfW. -/
def heapW : Heap String :=
  fun r => if r = 0 then some dfW else none

/-- C10 witness: at the concrete heap the reference comes back unchanged,
now holding the transformed frame and no longer the original. -/
theorem claim_transform_in_place_witness :
    heapW 0 = some dfW ∧
    (transform_op heapW 0).2 = 0 ∧
    (transform_op heapW 0).1 0 = some (transform dfW) ∧
    (transform_op heapW 0).1 1 = heapW 1 ∧
    (transform_op heapW 0).1 0 ≠ some dfW := by
  have h := claim_transform_in_place String heapW 0 dfW rfl
  exact ⟨rfl, h.1, h.2.1, h.2.2.1 1 (by decide), h.2.2.2 (by decide)⟩

/-- The idxmax characterisation of top_product over any frame. -/
theorem top_product_spec (f : List SalesRow) :
    (f = [] → top_product f = "N/A") ∧
    (f ≠ [] →
      top_product f ∈ f.map (fun r => r.product_name) ∧
      ∀ q ∈ f.map (fun r => r.product_name),
        key_sum (fun r => some r.product_name) q f ≤
          key_sum (fun r => some r.product_name) (top_product f) f) := by
  constructor
  · intro h; rw [h]; rfl
  · intro hne
    have hg_ne : groupby_sum (fun r => some r.product_name) f ≠ [] := by
      apply groupby_sum_ne_nil
      rw [filterMap_pname]
      intro h0
      exact hne (List.map_eq_nil_iff.mp h0)
    obtain ⟨p, hbp⟩ := bestPair_isSome hg_ne
    have hEmpty : f.isEmpty = false := by
      cases f with
      | nil => exact absurd rfl hne
      | cons a l => rfl
    have htop : top_product f = p.1 := by
      simp [top_product, hEmpty, idxmax, hbp]
    have hkey := mem_groupby_sum (bestPair_mem hbp)
    constructor
    · rw [htop, ← filterMap_pname]
      exact hkey.1
    · intro q hq
      rw [htop]
      have hqmem : (q, key_sum (fun r => some r.product_name) q f) ∈
          groupby_sum (fun r => some r.product_name) f := by
        rw [groupby_sum]
        apply List.mem_map.mpr
        refine ⟨q, ?_, rfl⟩
        rw [mem_sortKeys, mem_dedupKeys, filterMap_pname]
        exact hq
      have hle := bestPair_max hbp _ hqmem
      rw [hkey.2] at hle
      exact hle

/-- C4: over a nonempty filtered subset the top-product metric is a
product name of the subset whose summed sales is greater than or equal
to the summed sales of every product name occurring in the subset; over
the empty subset it is the sentinel. -/
theorem claim_top_product_max (regions categories : List String)
    (d1 d2 : Date) (df : List SalesRow) :
    (filtered_df regions categories d1 d2 df = [] →
      top_product (filtered_df regions categories d1 d2 df) = "N/A") ∧
    (filtered_df regions categories d1 d2 df ≠ [] →
      top_product (filtered_df regions categories d1 d2 df) ∈
        (filtered_df regions categories d1 d2 df).map
          (fun r => r.product_name) ∧
      ∀ q ∈ (filtered_df regions categories d1 d2 df).map
          (fun r => r.product_name),
        key_sum (fun r => some r.product_name) q
            (filtered_df regions categories d1 d2 df) ≤
          key_sum (fun r => some r.product_name)
            (top_product (filtered_df regions categories d1 d2 df))
            (filtered_df regions categories d1 d2 df)) :=
  top_product_spec (filtered_df regions categories d1 d2 df)

/-- C4 witness: in the concrete two-row subset the top product is one of
the product names and beats the group sum of P2. -/
theorem claim_top_product_max_witness :
    filtered_df ["EU", "US"] ["A", "B"] ⟨2024, 1, 1⟩ ⟨2024, 12, 31⟩
        [rowEU, rowUS] ≠ [] ∧
    top_product (filtered_df ["EU", "US"] ["A", "B"] ⟨2024, 1, 1⟩
        ⟨2024, 12, 31⟩ [rowEU, rowUS]) ∈
      (filtered_df ["EU", "US"] ["A", "B"] ⟨2024, 1, 1⟩ ⟨2024, 12, 31⟩
        [rowEU, rowUS]).map (fun r => r.product_name) ∧
    key_sum (fun r => some r.product_name) "P2"
        (filtered_df ["EU", "US"] ["A", "B"] ⟨2024, 1, 1⟩ ⟨2024, 12, 31⟩
          [rowEU, rowUS]) ≤
      key_sum (fun r => some r.product_name)
        (top_product (filtered_df ["EU", "US"] ["A", "B"] ⟨2024, 1, 1⟩
          ⟨2024, 12, 31⟩ [rowEU, rowUS]))
        (filtered_df ["EU", "US"] ["A", "B"] ⟨2024, 1, 1⟩ ⟨2024, 12, 31⟩
          [rowEU, rowUS]) := by
  have hne : filtered_df ["EU", "US"] ["A", "B"] ⟨2024, 1, 1⟩ ⟨2024, 12, 31⟩
      [rowEU, rowUS] ≠ [] := by decide
  have h := (claim_top_product_max ["EU", "US"] ["A", "B"] ⟨2024, 1, 1⟩
    ⟨2024, 12, 31⟩ [rowEU, rowUS]).2 hne
  exact ⟨hne, h.1, h.2 "P2" (by decide)⟩

/-- The idxmax characterisation of best_region over a frame whose rows
all carry a region. -/
theorem best_region_spec (f : List SalesRow)
    (hreg : ∀ r ∈ f, ∃ x, r.region = some x) :
    (total_sales f ≤ 0 → best_region f = "N/A") ∧
    (0 < total_sales f →
      ∃ s, (best_region f, s) ∈ region_share f ∧
        ∀ p ∈ region_share f, p.2 ≤ s) := by
  constructor
  · intro h
    rw [best_region, region_share, if_neg (not_lt.mpr h)]
    rfl
  · intro h
    have hne : f ≠ [] := by
      intro h0
      rw [h0] at h
      norm_num [total_sales] at h
    have hfm_ne : f.filterMap (fun r => r.region) ≠ [] := by
      cases f with
      | nil => exact absurd rfl hne
      | cons a l =>
        rcases hreg a (List.mem_cons_self a l) with ⟨x, hx⟩
        intro h0
        have hxm : x ∈ (a :: l).filterMap (fun r => r.region) :=
          List.mem_filterMap.mpr ⟨a, List.mem_cons_self a l, hx⟩
        rw [h0] at hxm
        exact List.not_mem_nil x hxm
    have hg_ne : groupby_sum (fun r => r.region) f ≠ [] :=
      groupby_sum_ne_nil hfm_ne
    have hrs : region_share f = (groupby_sum (fun r => r.region) f).map
        (fun p => (p.1, round2 (p.2 / total_sales f * 100))) := by
      rw [region_share, if_pos h]
    have hrs_ne : region_share f ≠ [] := by
      rw [hrs]
      intro h0
      exact hg_ne (List.map_eq_nil_iff.mp h0)
    obtain ⟨p, hbp⟩ := bestPair_isSome hrs_ne
    have hbest : best_region f = p.1 := by
      simp [best_region, idxmax, hbp]
    refine ⟨p.2, ?_, ?_⟩
    · rw [hbest]
      simpa using bestPair_mem hbp
    · intro q hq
      exact bestPair_max hbp q hq

/-- C3 as amended: the sentinel appears whenever total sales is not
positive (in particular at zero total or an empty subset), and whenever
total sales is positive the returned region carries the greatest rounded
share of the share series. -/
theorem claim_best_region_amended (regions categories : List String)
    (d1 d2 : Date) (df : List SalesRow) :
    (total_sales (filtered_df regions categories d1 d2 df) ≤ 0 →
      best_region (filtered_df regions categories d1 d2 df) = "N/A") ∧
    (0 < total_sales (filtered_df regions categories d1 d2 df) →
      ∃ s, (best_region (filtered_df regions categories d1 d2 df), s) ∈
          region_share (filtered_df regions categories d1 d2 df) ∧
        ∀ p ∈ region_share (filtered_df regions categories d1 d2 df),
          p.2 ≤ s) :=
  best_region_spec (filtered_df regions categories d1 d2 df)
    (fun _ hr => (filtered_region_some hr).imp (fun _ hx => hx.1))

/-- C3 counterexample: a one-row filtered subset with sales -5 is
nonempty and has nonzero total sales, yet best_region returns the
sentinel, refuting the claimed equivalence. -/
theorem claim_best_region_counterexample :
    filtered_df ["EU"] ["A"] ⟨2024, 1, 1⟩ ⟨2024, 12, 31⟩ [rowNeg] ≠ [] ∧
    total_sales (filtered_df ["EU"] ["A"] ⟨2024, 1, 1⟩ ⟨2024, 12, 31⟩
      [rowNeg]) ≠ 0 ∧
    best_region (filtered_df ["EU"] ["A"] ⟨2024, 1, 1⟩ ⟨2024, 12, 31⟩
      [rowNeg]) = "N/A" := by
  have hF : filtered_df ["EU"] ["A"] ⟨2024, 1, 1⟩ ⟨2024, 12, 31⟩ [rowNeg]
      = [rowNeg] := by decide
  refine ⟨by rw [hF]; simp, ?_, ?_⟩
  · rw [hF]
    norm_num [total_sales, rowNeg]
  · rw [hF]
    norm_num [best_region, region_share, total_sales, rowNeg, idxmax,
      bestPair]

/-- C3 witness: at the concrete two-row subset total sales is positive
and the amended theorem produces the maximal rounded share. -/
theorem claim_best_region_amended_witness :
    0 < total_sales (filtered_df ["EU", "US"] ["A", "B"] ⟨2024, 1, 1⟩
      ⟨2024, 12, 31⟩ [rowEU, rowUS]) ∧
    ∃ s, (best_region (filtered_df ["EU", "US"] ["A", "B"] ⟨2024, 1, 1⟩
        ⟨2024, 12, 31⟩ [rowEU, rowUS]), s) ∈
      region_share (filtered_df ["EU", "US"] ["A", "B"] ⟨2024, 1, 1⟩
        ⟨2024, 12, 31⟩ [rowEU, rowUS]) ∧
      ∀ p ∈ region_share (filtered_df ["EU", "US"] ["A", "B"] ⟨2024, 1, 1⟩
        ⟨2024, 12, 31⟩ [rowEU, rowUS]), p.2 ≤ s := by
  have hF : filtered_df ["EU", "US"] ["A", "B"] ⟨2024, 1, 1⟩ ⟨2024, 12, 31⟩
      [rowEU, rowUS] = [rowEU, rowUS] := by decide
  have hpos : 0 < total_sales (filtered_df ["EU", "US"] ["A", "B"]
      ⟨2024, 1, 1⟩ ⟨2024, 12, 31⟩ [rowEU, rowUS]) := by
    rw [hF]
    norm_num [total_sales, rowEU, rowUS]
  exact ⟨hpos, (claim_best_region_amended ["EU", "US"] ["A", "B"]
    ⟨2024, 1, 1⟩ ⟨2024, 12, 31⟩ [rowEU, rowUS]).2 hpos⟩

/-- Recombination bound for the rounded shares over a frame whose rows
all carry a region. -/
theorem region_share_recombine_bound (f : List SalesRow)
    (hreg : ∀ r ∈ f, ∃ x, r.region = some x)
    (h : 0 < total_sales f) :
    |((region_share f).map (fun p => p.2 * total_sales f / 100)).sum
        - total_sales f| ≤
      (region_share f).length * total_sales f / 20000 := by
  have hT0 : total_sales f ≠ 0 := ne_of_gt h
  have hrs : region_share f = (groupby_sum (fun r => r.region) f).map
      (fun p => (p.1, round2 (p.2 / total_sales f * 100))) := by
    rw [region_share, if_pos h]
  have hA : ((region_share f).map
        (fun p => p.2 * total_sales f / 100)).sum
      = ((groupby_sum (fun r => r.region) f).map
          (fun p => round2 (p.2 / total_sales f * 100)
            * total_sales f / 100)).sum := by
    rw [hrs, List.map_map]
    rfl
  have hkeys_nodup :
      (sortKeys (dedupKeys (f.filterMap (fun r => r.region)))).Nodup :=
    nodup_sortKeys (nodup_dedupKeys _)
  have hcov : ∀ r ∈ f, ∃ k, r.region = some k ∧
      k ∈ sortKeys (dedupKeys (f.filterMap (fun r => r.region))) := by
    intro r hr
    rcases hreg r hr with ⟨x, hx⟩
    refine ⟨x, hx, ?_⟩
    rw [mem_sortKeys, mem_dedupKeys]
    exact List.mem_filterMap.mpr ⟨r, hr, hx⟩
  have hB : ((groupby_sum (fun r => r.region) f).map (fun p => p.2)).sum
      = total_sales f := by
    rw [groupby_sum, List.map_map]
    exact key_sum_partition (fun r => r.region) _ hkeys_nodup f hcov
  have hdiff : ((groupby_sum (fun r => r.region) f).map
        (fun p => round2 (p.2 / total_sales f * 100)
          * total_sales f / 100)).sum
      - ((groupby_sum (fun r => r.region) f).map (fun p => p.2)).sum
      = ((groupby_sum (fun r => r.region) f).map
          (fun p => round2 (p.2 / total_sales f * 100)
            * total_sales f / 100 - p.2)).sum := by
    rw [list_sum_map_sub]
  have hbound : ∀ x ∈ (groupby_sum (fun r => r.region) f).map
      (fun p => round2 (p.2 / total_sales f * 100)
        * total_sales f / 100 - p.2),
      |x| ≤ total_sales f / 20000 := by
    intro x hx
    rcases List.mem_map.mp hx with ⟨p, _, hpx⟩
    rw [← hpx]
    have hrw : round2 (p.2 / total_sales f * 100) * total_sales f / 100 - p.2
        = (round2 (p.2 / total_sales f * 100) - p.2 / total_sales f * 100)
            * (total_sales f / 100) := by
      field_simp
      ring
    rw [hrw, abs_mul, abs_of_pos (div_pos h (by norm_num))]
    calc |round2 (p.2 / total_sales f * 100) - p.2 / total_sales f * 100|
          * (total_sales f / 100)
        ≤ (1/200) * (total_sales f / 100) :=
          mul_le_mul_of_nonneg_right (abs_round2_sub _)
            (le_of_lt (div_pos h (by norm_num)))
      _ = total_sales f / 20000 := by ring
  have habs := abs_list_sum_le (total_sales f / 20000) _ hbound
  have hstep : ((region_share f).map
        (fun p => p.2 * total_sales f / 100)).sum - total_sales f
      = ((groupby_sum (fun r => r.region) f).map
          (fun p => round2 (p.2 / total_sales f * 100)
            * total_sales f / 100 - p.2)).sum := by
    rw [hA, ← hdiff, hB]
  rw [hstep]
  refine le_trans habs ?_
  rw [List.length_map, hrs, List.length_map]
  exact le_of_eq (by ring)

/-- C7: for a filter selection with positive total sales, summing
region_share times total over 100 across the share series reproduces the
total up to the two-decimal rounding error, bounded by the number of
regions times total over 20000. -/
theorem claim_region_share_recombines (regions categories : List String)
    (d1 d2 : Date) (df : List SalesRow)
    (h : 0 < total_sales (filtered_df regions categories d1 d2 df)) :
    |((region_share (filtered_df regions categories d1 d2 df)).map
        (fun p => p.2 * total_sales (filtered_df regions categories d1 d2 df)
          / 100)).sum
      - total_sales (filtered_df regions categories d1 d2 df)| ≤
      (region_share (filtered_df regions categories d1 d2 df)).length *
        total_sales (filtered_df regions categories d1 d2 df) / 20000 :=
  region_share_recombine_bound (filtered_df regions categories d1 d2 df)
    (fun _ hr => (filtered_region_some hr).imp (fun _ hx => hx.1)) h

/-- C7 witness: the bound holds at the concrete two-row subset with
positive total sales. -/
theorem claim_region_share_recombines_witness :
    0 < total_sales (filtered_df ["EU", "US"] ["A", "B"] ⟨2024, 1, 1⟩
      ⟨2024, 12, 31⟩ [rowEU, rowUS]) ∧
    |((region_share (filtered_df ["EU", "US"] ["A", "B"] ⟨2024, 1, 1⟩
        ⟨2024, 12, 31⟩ [rowEU, rowUS])).map
        (fun p => p.2 * total_sales (filtered_df ["EU", "US"] ["A", "B"]
          ⟨2024, 1, 1⟩ ⟨2024, 12, 31⟩ [rowEU, rowUS]) / 100)).sum
      - total_sales (filtered_df ["EU", "US"] ["A", "B"] ⟨2024, 1, 1⟩
        ⟨2024, 12, 31⟩ [rowEU, rowUS])| ≤
      (region_share (filtered_df ["EU", "US"] ["A", "B"] ⟨2024, 1, 1⟩
        ⟨2024, 12, 31⟩ [rowEU, rowUS])).length *
        total_sales (filtered_df ["EU", "US"] ["A", "B"] ⟨2024, 1, 1⟩
          ⟨2024, 12, 31⟩ [rowEU, rowUS]) / 20000 := by
  have hF : filtered_df ["EU", "US"] ["A", "B"] ⟨2024, 1, 1⟩ ⟨2024, 12, 31⟩
      [rowEU, rowUS] = [rowEU, rowUS] := by decide
  have hpos : 0 < total_sales (filtered_df ["EU", "US"] ["A", "B"]
      ⟨2024, 1, 1⟩ ⟨2024, 12, 31⟩ [rowEU, rowUS]) := by
    rw [hF]
    norm_num [total_sales, rowEU, rowUS]
  exact ⟨hpos, claim_region_share_recombines ["EU", "US"] ["A", "B"]
    ⟨2024, 1, 1⟩ ⟨2024, 12, 31⟩ [rowEU, rowUS] hpos⟩
